import Mathlib

/-!
Verification of the table renderers of `csv2markup.py`.

The program buffers all csv rows, filters out empty rows, computes one
width per column (`itertools.izip(*data)` transposes the rows, truncating
at the shortest row, and `max(len(val) for val in col)` takes each
column's maximum cell length), and then renders the table in one of four
dialects (RST grid, Markdown, Dokuwiki, HTML), each a subclass of a
common `Processor` driving header phase / body phase / trailer phase.

All definitions below are shallow embeddings of the corresponding Python
code; rows are `List String`, the rendered output is a `List String` of
lines (newlines excluded, as in the generator protocol).
-/

namespace Csv2Markup

/-- Python `Processor.__init__`: `self.data = [row for row in stream if row]` —
Python truthiness keeps exactly the non-empty rows. -/
def initData (stream : List (List String)) : List (List String) :=
  stream.filter (fun row => !row.isEmpty)

/-- Helper for `izip`: splits a list of rows into their heads and tails,
returning `none` as soon as some row is empty (an exhausted iterator). -/
def headsTails : List (List α) → Option (List α × List (List α))
  | [] => some ([], [])
  | [] :: _ => none
  | (x :: xs) :: rs => (headsTails rs).map (fun p => (x :: p.1, xs :: p.2))

/-- Worker for `izip`, structurally recursive on the first row. -/
def izipAux : List α → List (List α) → List (List α)
  | [], _ => []
  | x :: xs, rs =>
    match headsTails rs with
    | none => []
    | some (hs, ts) => (x :: hs) :: izipAux xs ts

/-- Python `itertools.izip(*data)`: transposes a list of rows, stopping at the
shortest row (the zip ends when any iterator is exhausted).  With no rows
at all, `izip()` yields nothing. -/
def izip : List (List α) → List (List α)
  | [] => []
  | r :: rs => izipAux r rs

/-- Python `max(len(val) for val in col)`.  Every column produced by `izip` has
one entry per row and is hence non-empty wherever this is used, so the
fold from `0` agrees with Python's `max` over a non-empty sequence. -/
def colMax (col : List String) : Nat :=
  (col.map String.length).foldl Nat.max 0

/-- Python `Processor.__init__`: `self.lengths`, the per-column maximum cell
lengths over the transposed (shortest-row-truncated) data. -/
def initLengths (data : List (List String)) : List Nat :=
  (izip data).map colMax

/-- The length of the shortest row (Python `min` over row lengths),
written as the fold that the `izip` truncation effectively computes. -/
def minLen : List (List α) → Nat
  | [] => 0
  | r :: rs => rs.foldl (fun m row => min m row.length) r.length

/-- Python `sep.join(parts)`. -/
def pyJoin (sep : String) : List String → String
  | [] => ""
  | [s] => s
  | s :: rest => s ++ (sep ++ pyJoin sep rest)

/-- Character-level worker for Python `str.replace` with a one-character
pattern: each occurrence of `c` is replaced by `r`. -/
def replChar : List Char → Char → List Char → List Char
  | [], _, _ => []
  | x :: xs, c, r => (if x = c then r else [x]) ++ replChar xs c r

/-- Python `s.replace(c, r)` for a single-character pattern `c`. -/
def pyReplace (s : String) (c : Char) (r : String) : String :=
  ⟨replChar s.data c r.data⟩

/-- Python `char * n`. -/
def repeatChar (c : Char) (n : Nat) : String :=
  ⟨List.replicate n c⟩

/-- The cell formatting `" %-*s  " % (w, s)`: a leading space, the string
left-justified with trailing spaces to minimum width `w`, then two more
spaces.  (`%-*s` never truncates; if `s` is longer than `w` it is emitted
in full, which the truncated subtraction models.) -/
def padCell (w : Nat) (s : String) : String :=
  " " ++ (s ++ repeatChar ' ' (w - s.length)) ++ "  "

/-- The padded cells of one rendered row:
`(" %-*s  " % (length, clean(cell)) for length, cell in zip(lengths, row))`. -/
def rowCells (cl : String → String) (L : List Nat) (row : List String) :
    List String :=
  (L.zip row).map (fun p => padCell p.1 (cl p.2))

/-- The delimited row shape shared by RST, Markdown and Dokuwiki:
`DELIM + DELIM.join(cells) + DELIM`. -/
def delimitedRow (delim : String) (cl : String → String) (L : List Nat)
    (row : List String) : String :=
  delim ++ (pyJoin delim (rowCells cl L row) ++ delim)

/-- Python `Processor.clean`: the base class performs no escaping. -/
def processorClean (s : String) : String := s

namespace RST

/-- Python `RST.clean`: `s.replace("\\", "\\\\").replace("|", "\\|")`. -/
def clean (s : String) : String :=
  pyReplace (pyReplace s '\\' "\\\\") '|' "\\|"

/-- Python `RST.__init__` border construction with fill character `ch`:
`self.CORNER + self.CORNER.join(char * (length+3) ...) + self.CORNER`
with `CORNER = '+'`. -/
def borderWith (ch : Char) (L : List Nat) : String :=
  "+" ++ (pyJoin "+" (L.map (fun len => repeatChar ch (len + 3))) ++ "+")

/-- Python `self.border`: the dash-filled border line. -/
def border (L : List Nat) : String := borderWith '-' L

/-- Python `self.separator`: the equals-filled header separator line. -/
def separator (L : List Nat) : String := borderWith '=' L

/-- Python `RST.process_regular_row` (one yielded line, `DELIM = '|'`). -/
def processRegularRow (L : List Nat) (row : List String) : String :=
  delimitedRow "|" clean L row

/-- Python `RST.process_header_row`: border, the header as a regular row, then
the separator. -/
def processHeaderRow (L : List Nat) (row : List String) : List String :=
  [border L, processRegularRow L row, separator L]

/-- Python `RST.post`: the trailing border. -/
def post (L : List Nat) : List String := [border L]

/-- Python `Processor.__iter__` specialised to RST.  With no rows at all,
`next(i)` raises `StopIteration`, which (Python 2 generator semantics)
silently terminates the generator before any line is yielded. -/
def render (stream : List (List String)) : List String :=
  match initData stream with
  | [] => []
  | header :: body =>
    let L := initLengths (initData stream)
    processHeaderRow L header ++
      (body.map (fun r => processRegularRow L r) ++ post L)

end RST

namespace Markdown

/-- Python `Markdown.clean`: identical to `RST.clean`. -/
def clean (s : String) : String :=
  pyReplace (pyReplace s '\\' "\\\\") '|' "\\|"

/-- Python `Markdown.process_regular_row` (one yielded line, `DELIM = '|'`). -/
def processRegularRow (L : List Nat) (row : List String) : String :=
  delimitedRow "|" clean L row

/-- The dash separator row yielded by `Markdown.process_header_row`:
`DELIM + DELIM.join(" %s " % ('-' * (length+1)) ...) + DELIM` —
one leading and one trailing space around `length+1` dashes. -/
def headerRule (L : List Nat) : String :=
  "|" ++ (pyJoin "|"
    (L.map (fun len => " " ++ (repeatChar '-' (len + 1) ++ " "))) ++ "|")

/-- Python `Markdown.process_header_row`: the header as a regular row, then the
dash rule. -/
def processHeaderRow (L : List Nat) (row : List String) : List String :=
  [processRegularRow L row, headerRule L]

/-- Python `Processor.__iter__` specialised to Markdown (no trailer). -/
def render (stream : List (List String)) : List String :=
  match initData stream with
  | [] => []
  | header :: body =>
    let L := initLengths (initData stream)
    processHeaderRow L header ++ body.map (fun r => processRegularRow L r)

end Markdown

namespace Dokuwiki

/-- Python `Dokuwiki` inherits `Processor.clean`, which escapes nothing. -/
def clean (s : String) : String := s

/-- Python `Dokuwiki.process_regular_row` (`DELIM = '|'`). -/
def processRegularRow (L : List Nat) (row : List String) : String :=
  delimitedRow "|" clean L row

/-- Python `Dokuwiki.process_header_row` (`HEADER_DELIM = '^'`). -/
def processHeaderRow (L : List Nat) (row : List String) : List String :=
  [delimitedRow "^" clean L row]

/-- Python `Processor.__iter__` specialised to Dokuwiki (no trailer). -/
def render (stream : List (List String)) : List String :=
  match initData stream with
  | [] => []
  | header :: body =>
    let L := initLengths (initData stream)
    processHeaderRow L header ++ body.map (fun r => processRegularRow L r)

end Dokuwiki

namespace HTML

/-- Python `HTML.clean` is `cgi.escape(s)` with the default `quote=None`:
`&` then `<` then `>` are replaced by entities; quote characters are NOT
replaced (that happens only under `quote=True`, which is not passed). -/
def clean (s : String) : String :=
  pyReplace (pyReplace (pyReplace s '&' "&amp;") '<' "&lt;") '>' "&gt;"

/-- One header cell: `"<th>%s</th>" % self.clean(cell)`. -/
def headerCell (cell : String) : String :=
  "<th>" ++ (clean cell ++ "</th>")

/-- One data cell: `"<td>%s</td>" % self.clean(cell)`. -/
def bodyCell (cell : String) : String :=
  "<td>" ++ (clean cell ++ "</td>")

/-- Python `HTML.process_header_row`: the opening tags, one `<tr>` of `<th>`
cells, then `</thead><tbody>`. -/
def processHeaderRow (row : List String) : List String :=
  ["<table>", "<thead>",
   "<tr>" ++ (String.join (row.map headerCell) ++ "</tr>"),
   "</thead>", "<tbody>"]

/-- Python `HTML.process_regular_row`: one `<tr>` of `<td>` cells. -/
def processRegularRow (row : List String) : String :=
  "<tr>" ++ (String.join (row.map bodyCell) ++ "</tr>")

/-- Python `HTML.post`: the closing tags. -/
def post : List String := ["</tbody>", "</table>"]

/-- Python `Processor.__iter__` specialised to HTML (widths are computed but
never used by this dialect). -/
def render (stream : List (List String)) : List String :=
  match initData stream with
  | [] => []
  | header :: body =>
    processHeaderRow header ++ (body.map processRegularRow ++ post)

end HTML

/-- The four concrete `Processor` subclasses. -/
inductive MarkupClass
  | rst
  | markdown
  | dokuwiki
  | html
deriving DecidableEq

/-- Rendering an input stream with a given subclass. -/
def classRender : MarkupClass → List (List String) → List String
  | .rst => RST.render
  | .markdown => Markdown.render
  | .dokuwiki => Dokuwiki.render
  | .html => HTML.render

/-- The literal `FORMATS` table: name -> (class, aliases). -/
def formatsBase : List (String × MarkupClass × List String) :=
  [("dokuwiki", (.dokuwiki, ["dok", "doku", "dw"])),
   ("markdown", (.markdown, ["md"])),
   ("rst", (.rst, ["rest", "restructured text", "restructuredtext"])),
   ("html", (.html, []))]

/-- Python `FORMATS` after the alias-processing loop: for every entry and every
alias, the alias maps to the very same `(class, aliases)` tuple.  No
alias collides with a canonical name, so dict update order is
irrelevant and an association list models the dict lookup. -/
def FORMATS : List (String × MarkupClass × List String) :=
  formatsBase ++
    formatsBase.flatMap (fun e => e.2.2.map (fun a => (a, e.2)))

/-- Python `FORMATS[name]` as a partial lookup. -/
def lookupFormat (name : String) : Option (MarkupClass × List String) :=
  (FORMATS.find? (fun e => e.1 == name)).map Prod.snd

/-- Occurrences of a character in a string (`line.count(c)`). -/
def countChar (s : String) (c : Char) : Nat :=
  s.data.count c

/-- Proof-side description of one transposed column: the entries at
index `j` of every row, defined only when every row is long enough. -/
def seqCol : List (List α) → Nat → Option (List α)
  | [], _ => some []
  | r :: rs, j =>
    match r[j]?, seqCol rs j with
    | some x, some xs => some (x :: xs)
    | _, _ => none

/-- The character-by-character escaping described for the Grid and
Markdown cleaning functions: a backslash or a delimiter `'|'` becomes
that character preceded by a backslash, everything else is kept. -/
def escGridChar (c : Char) : List Char :=
  if c = '\\' then ['\\', '\\']
  else if c = '|' then ['\\', '|']
  else [c]

/-- The character-by-character entity escaping actually performed by
`cgi.escape` with its defaults: `&`, `<` and `>` become entities, every
other character (quotes included) is kept. -/
def escHtmlChar (c : Char) : List Char :=
  if c = '&' then ['&', 'a', 'm', 'p', ';']
  else if c = '<' then ['&', 'l', 't', ';']
  else if c = '>' then ['&', 'g', 't', ';']
  else [c]

/-!  Characterisation of the truncating transpose `izip`. -/

lemma getElem?_isSome_iff {α} {l : List α} {i : Nat} :
    (l[i]?).isSome ↔ i < l.length := by
  constructor
  · intro h
    obtain ⟨a, ha⟩ := Option.isSome_iff_exists.mp h
    exact (List.getElem?_eq_some.mp ha).1
  · intro h
    exact Option.isSome_iff_exists.mpr ⟨l[i], (List.getElem?_eq_some).mpr ⟨h, rfl⟩⟩

lemma headsTails_none {α} {rs : List (List α)} (h : headsTails rs = none)
    (j : Nat) : seqCol rs j = none := by
  induction rs with
  | nil => simp [headsTails] at h
  | cons r rest ih =>
    cases r with
    | nil => simp [seqCol]
    | cons x xs =>
      simp only [headsTails, Option.map_eq_none'] at h
      have hrest := ih h
      show (match (x :: xs)[j]?, seqCol rest j with
        | some a, some as => some (a :: as)
        | _, _ => none) = none
      rw [hrest]
      cases (x :: xs)[j]? <;> rfl

lemma headsTails_some_head {α} {rs : List (List α)} {hs ts}
    (h : headsTails rs = some (hs, ts)) : seqCol rs 0 = some hs := by
  induction rs generalizing hs ts with
  | nil =>
    simp only [headsTails, Option.some.injEq] at h
    obtain ⟨h1, _⟩ := Prod.mk.inj h.symm
    simp [seqCol, h1]
  | cons r rest ih =>
    cases r with
    | nil => simp [headsTails] at h
    | cons x xs =>
      simp only [headsTails, Option.map_eq_some'] at h
      obtain ⟨⟨hs', ts'⟩, hht, heq⟩ := h
      obtain ⟨h1, _⟩ := Prod.mk.inj heq
      show (match (x :: xs)[0]?, seqCol rest 0 with
        | some a, some as => some (a :: as)
        | _, _ => none) = some hs
      rw [ih hht, List.getElem?_cons_zero]
      simp [← h1]

lemma headsTails_some_tail {α} {rs : List (List α)} {hs ts}
    (h : headsTails rs = some (hs, ts)) (j : Nat) :
    seqCol rs (j + 1) = seqCol ts j := by
  induction rs generalizing hs ts with
  | nil =>
    simp only [headsTails, Option.some.injEq] at h
    obtain ⟨_, h2⟩ := Prod.mk.inj h.symm
    subst h2
    rfl
  | cons r rest ih =>
    cases r with
    | nil => simp [headsTails] at h
    | cons x xs =>
      simp only [headsTails, Option.map_eq_some'] at h
      obtain ⟨⟨hs', ts'⟩, hht, heq⟩ := h
      obtain ⟨_, h2⟩ := Prod.mk.inj heq
      show (match (x :: xs)[j + 1]?, seqCol rest (j + 1) with
        | some a, some as => some (a :: as)
        | _, _ => none) = seqCol ts j
      rw [ih hht, List.getElem?_cons_succ, ← h2]
      rfl

lemma izipAux_getElem? {α} (xs : List α) (rs : List (List α)) (j : Nat) :
    (izipAux xs rs)[j]? =
      match xs[j]?, seqCol rs j with
      | some x, some col => some (x :: col)
      | _, _ => none := by
  induction xs generalizing rs j with
  | nil =>
    show (([] : List (List α)))[j]? = _
    cases seqCol rs j <;> simp [seqCol]
  | cons x xs ih =>
    cases hht : headsTails rs with
    | none =>
      simp only [izipAux, hht]
      rw [headsTails_none hht j]
      cases (x :: xs)[j]? <;> rfl
    | some p =>
      obtain ⟨hs, ts⟩ := p
      simp only [izipAux, hht]
      cases j with
      | zero =>
        rw [List.getElem?_cons_zero, headsTails_some_head hht,
          List.getElem?_cons_zero]
      | succ j =>
        rw [List.getElem?_cons_succ, ih ts j, headsTails_some_tail hht j,
          List.getElem?_cons_succ]

lemma seqCol_isSome {α} (rs : List (List α)) (j : Nat) :
    (seqCol rs j).isSome ↔ ∀ r ∈ rs, j < r.length := by
  induction rs with
  | nil => simp [seqCol]
  | cons r rest ih =>
    show (match r[j]?, seqCol rest j with
      | some a, some as => some (a :: as)
      | _, _ => none).isSome ↔ _
    rw [List.forall_mem_cons, ← ih, ← @getElem?_isSome_iff _ r j]
    cases r[j]? <;> cases seqCol rest j <;> simp

lemma seqCol_eq_map {rs : List (List String)} {j : Nat} {col : List String}
    (h : seqCol rs j = some col) :
    col = rs.map (fun r => (r[j]?).getD "") := by
  induction rs generalizing col with
  | nil =>
    simp only [seqCol, Option.some.injEq] at h
    simp [← h]
  | cons r rest ih =>
    simp only [seqCol] at h
    cases hr : r[j]? with
    | none =>
      rw [hr] at h
      exact absurd h (by cases seqCol rest j <;> simp)
    | some x =>
      cases hs : seqCol rest j with
      | none =>
        rw [hr, hs] at h
        exact absurd h (by simp)
      | some xs =>
        rw [hr, hs] at h
        obtain rfl : x :: xs = col := Option.some.inj h
        simp [hr, ih hs]

lemma lt_foldl_min {α} (rs : List (List α)) (a j : Nat) :
    j < rs.foldl (fun m row => min m row.length) a ↔
      j < a ∧ ∀ r ∈ rs, j < r.length := by
  induction rs generalizing a with
  | nil => simp
  | cons r rest ih =>
    show j < rest.foldl _ (min a r.length) ↔ _
    rw [ih (min a r.length), List.forall_mem_cons, Nat.lt_min]
    tauto

lemma izip_length {α} (r : List α) (rs : List (List α)) :
    (izip (r :: rs)).length = minLen (r :: rs) := by
  have key : ∀ j, ((izip (r :: rs))[j]?).isSome ↔ j < minLen (r :: rs) := by
    intro j
    rw [show izip (r :: rs) = izipAux r rs from rfl, izipAux_getElem?]
    have split : (match r[j]?, seqCol rs j with
        | some x, some col => some (x :: col)
        | _, _ => none).isSome ↔ (r[j]?).isSome ∧ (seqCol rs j).isSome := by
      cases r[j]? <;> cases seqCol rs j <;> simp
    rw [split, getElem?_isSome_iff, seqCol_isSome]
    exact (lt_foldl_min rs r.length j).symm
  apply Nat.le_antisymm
  · by_contra hlt
    push_neg at hlt
    have h1 : ((izip (r :: rs))[minLen (r :: rs)]?).isSome :=
      getElem?_isSome_iff.mpr hlt
    rw [key] at h1
    exact absurd h1 (lt_irrefl _)
  · rcases hn : minLen (r :: rs) with _ | m
    · exact Nat.zero_le _
    · have h1 : ((izip (r :: rs))[m]?).isSome :=
        (key m).mpr (by omega)
      have := getElem?_isSome_iff.mp h1
      omega

lemma initLengths_length {data : List (List String)} (h : data ≠ []) :
    (initLengths data).length = minLen data := by
  obtain ⟨r, rs, rfl⟩ := List.exists_cons_of_ne_nil h
  show ((izip (r :: rs)).map colMax).length = _
  rw [List.length_map, izip_length]

/-- C1: for a table whose retained rows all have `N` cells, the renderer
computes exactly one width per column, the width of column `i` being the
maximum cell length at index `i` over the header and all body rows; and
on the concrete input `[["a","bb"],["ccc","d"]]` the widths are `[3,2]`. -/
theorem claim1_column_widths (data : List (List String)) (N : Nat)
    (hne : data ≠ []) (hN : ∀ r ∈ data, r.length = N) :
    initLengths data =
      (List.range N).map (fun i =>
        (data.map (fun r => ((r[i]?).getD "").length)).foldl Nat.max 0) ∧
    initLengths (initData [["a", "bb"], ["ccc", "d"]]) = [3, 2] := by
  refine ⟨?_, by decide⟩
  obtain ⟨r, rs, rfl⟩ := List.exists_cons_of_ne_nil hne
  apply List.ext_getElem?
  intro i
  rw [initLengths, List.getElem?_map,
    show izip (r :: rs) = izipAux r rs from rfl, izipAux_getElem?,
    List.getElem?_map]
  by_cases hi : i < N
  · have hrN : r.length = N := hN r (by simp)
    have hil : i < r.length := by omega
    have hx : r[i]? = some r[i] := List.getElem?_eq_some.mpr ⟨hil, rfl⟩
    have hsome : (seqCol rs i).isSome :=
      (seqCol_isSome rs i).mpr (fun row hrow => by
        rw [hN row (List.mem_cons_of_mem _ hrow)]; exact hi)
    obtain ⟨col, hcol⟩ := Option.isSome_iff_exists.mp hsome
    rw [hx, hcol, List.getElem?_range hi]
    have hcolmap := seqCol_eq_map hcol
    subst hcolmap
    simp [colMax, List.map_map, Function.comp_def, hx]
  · have hrN : r.length = N := hN r (by simp)
    have hx : r[i]? = none := List.getElem?_eq_none (by omega)
    have hrange : (List.range N)[i]? = none :=
      List.getElem?_eq_none (by rw [List.length_range]; omega)
    rw [hx, hrange]
    cases seqCol rs i <;> simp

/-- Witness for C1 at the input `[["a","bb"],["ccc","d"]]` (uniform row
length 2): the computed widths are the per-column maxima, `[3,2]`. -/
theorem claim1_column_widths_wit :
    initLengths [["a", "bb"], ["ccc", "d"]] =
      (List.range 2).map (fun i =>
        (([["a", "bb"], ["ccc", "d"]] : List (List String)).map
          (fun r => ((r[i]?).getD "").length)).foldl Nat.max 0) ∧
    initLengths (initData [["a", "bb"], ["ccc", "d"]]) = [3, 2] :=
  claim1_column_widths [["a", "bb"], ["ccc", "d"]] 2 (by decide) (by decide)

/-- C9: on rows of differing lengths the renderer is total (these are
all total functions) and silently truncates: the number of computed
widths is the length of the shortest retained row, and each rendered
delimited row carries exactly `min (number of widths) (row length)`
cells, the excess cells being dropped by `zip`. -/
theorem claim9_ragged_rows (stream : List (List String)) (r : List String)
    (hne : initData stream ≠ []) (_hr : r ∈ initData stream) :
    (initLengths (initData stream)).length = minLen (initData stream) ∧
    (rowCells RST.clean (initLengths (initData stream)) r).length =
      min (initLengths (initData stream)).length r.length ∧
    (rowCells Dokuwiki.clean (initLengths (initData stream)) r).length =
      min (initLengths (initData stream)).length r.length := by
  refine ⟨initLengths_length hne, ?_, ?_⟩ <;>
    simp [rowCells, List.length_zip]

/-- Witness for C9 at the ragged input `[["a","bb"],["ccc"]]`: one width
is computed (the shortest row has one cell) and the two-cell header row
renders with a single cell. -/
theorem claim9_ragged_rows_wit :
    (initLengths (initData [["a", "bb"], ["ccc"]])).length =
      minLen (initData [["a", "bb"], ["ccc"]]) ∧
    (rowCells RST.clean (initLengths (initData [["a", "bb"], ["ccc"]]))
        ["a", "bb"]).length =
      min (initLengths (initData [["a", "bb"], ["ccc"]])).length
        (["a", "bb"] : List String).length ∧
    (rowCells Dokuwiki.clean (initLengths (initData [["a", "bb"], ["ccc"]]))
        ["a", "bb"]).length =
      min (initLengths (initData [["a", "bb"], ["ccc"]])).length
        (["a", "bb"] : List String).length :=
  claim9_ragged_rows [["a", "bb"], ["ccc"]] ["a", "bb"] (by decide) (by decide)

lemma replChar_append (l1 l2 : List Char) (c : Char) (r : List Char) :
    replChar (l1 ++ l2) c r = replChar l1 c r ++ replChar l2 c r := by
  induction l1 with
  | nil => rfl
  | cons x xs ih => simp [replChar, ih]

lemma replChar_of_not_mem {l : List Char} {p : Char} (r : List Char)
    (h : p ∉ l) : replChar l p r = l := by
  induction l with
  | nil => rfl
  | cons x xs ih =>
    simp only [List.mem_cons, not_or] at h
    simp [replChar, Ne.symm h.1, ih h.2]

lemma not_mem_replChar {l : List Char} {p : Char} {r : List Char} {c : Char}
    (hl : c ∉ l) (hr : c ∉ r) : c ∉ replChar l p r := by
  induction l with
  | nil => simp [replChar]
  | cons x xs ih =>
    simp only [List.mem_cons, not_or] at hl
    simp only [replChar, List.mem_append]
    rintro (h | h)
    · split at h
      · exact hr h
      · simp at h; exact hl.1 h
    · exact ih hl.2 h

lemma gridClean_data (l : List Char) :
    replChar (replChar l '\\' ['\\', '\\']) '|' ['\\', '|'] =
      l.flatMap escGridChar := by
  induction l with
  | nil => rfl
  | cons x xs ih =>
    show replChar ((if x = '\\' then ['\\', '\\'] else [x]) ++
      replChar xs '\\' ['\\', '\\']) '|' ['\\', '|'] = _
    rw [replChar_append, ih]
    rcases eq_or_ne x '\\' with h | h
    · subst h; rfl
    · rcases eq_or_ne x '|' with h2 | h2
      · subst h2; rfl
      · simp [replChar, h, h2, escGridChar]

lemma htmlClean_data (l : List Char) :
    replChar (replChar (replChar l '&' ['&', 'a', 'm', 'p', ';'])
        '<' ['&', 'l', 't', ';']) '>' ['&', 'g', 't', ';'] =
      l.flatMap escHtmlChar := by
  induction l with
  | nil => rfl
  | cons x xs ih =>
    show replChar (replChar ((if x = '&' then ['&', 'a', 'm', 'p', ';'] else [x]) ++
      replChar xs '&' ['&', 'a', 'm', 'p', ';']) '<' ['&', 'l', 't', ';'])
      '>' ['&', 'g', 't', ';'] = _
    rw [replChar_append, replChar_append, ih]
    rcases eq_or_ne x '&' with h | h
    · subst h; rfl
    · rcases eq_or_ne x '<' with h2 | h2
      · subst h2; rfl
      · rcases eq_or_ne x '>' with h3 | h3
        · subst h3; rfl
        · simp [replChar, h, h2, h3, escHtmlChar]

/-- C7: the Grid and Markdown cleaning functions escape exactly every
backslash and every `'|'` in the cell with a preceding backslash
(character by character, applied once), the two functions agree, the
Wiki (Dokuwiki) cleaning function is the identity, and a Dokuwiki body
row therefore places the stored cell values verbatim between the
delimiters. -/
theorem claim7_escaping :
    (∀ s : String, RST.clean s = ⟨s.data.flatMap escGridChar⟩) ∧
    (∀ s : String, Markdown.clean s = RST.clean s) ∧
    (∀ s : String, Dokuwiki.clean s = s) ∧
    (∀ L row, Dokuwiki.processRegularRow L row =
      "|" ++ (pyJoin "|" ((L.zip row).map (fun p => padCell p.1 p.2)) ++ "|")) := by
  refine ⟨fun s => ?_, fun s => rfl, fun s => rfl, fun L row => rfl⟩
  show (⟨replChar (replChar s.data '\\' ("\\\\").data) '|' ("\\|").data⟩ : String) = _
  exact congrArg String.mk (gridClean_data s.data)

/-- C5, amended: `HTML.clean` entity-escapes exactly the angle brackets
and the ampersand, character by character — quote characters are left
verbatim (`cgi.escape` is called without `quote=True`).  On the claimed
scenario (header `["A"]`, body `[["<x>"]]`) the rendered cells are
`<th>A</th>` and `<td>&lt;x&gt;</td>` and the full output carries no
column-width padding. -/
theorem claim5_html_escape :
    (∀ s : String, HTML.clean s = ⟨s.data.flatMap escHtmlChar⟩) ∧
    HTML.headerCell "A" = "<th>A</th>" ∧
    HTML.bodyCell "<x>" = "<td>&lt;x&gt;</td>" ∧
    HTML.render [["A"], ["<x>"]] =
      ["<table>", "<thead>", "<tr><th>A</th></tr>", "</thead>", "<tbody>",
       "<tr><td>&lt;x&gt;</td></tr>", "</tbody>", "</table>"] := by
  refine ⟨fun s => ?_, by decide, by decide, by decide⟩
  show (⟨replChar (replChar (replChar s.data '&' ("&amp;").data)
    '<' ("&lt;").data) '>' ("&gt;").data⟩ : String) = _
  exact congrArg String.mk (htmlClean_data s.data)

/-!  Counting delimiter occurrences in rendered lines. -/

lemma countChar_append (a b : String) (c : Char) :
    countChar (a ++ b) c = countChar a c + countChar b c := by
  simp [countChar, String.data_append, List.count_append]

lemma countChar_pyJoin (sep : String) (c : Char) (cells : List String)
    (hne : cells ≠ []) (hz : ∀ s ∈ cells, countChar s c = 0) :
    countChar (pyJoin sep cells) c = (cells.length - 1) * countChar sep c := by
  induction cells with
  | nil => exact absurd rfl hne
  | cons s rest ih =>
    cases rest with
    | nil => simpa [pyJoin] using hz s (by simp)
    | cons s2 rest2 =>
      have hstep : pyJoin sep (s :: s2 :: rest2) =
          s ++ (sep ++ pyJoin sep (s2 :: rest2)) := rfl
      rw [hstep, countChar_append, countChar_append, hz s (by simp),
        ih (by simp) (fun t ht => hz t (by simp [ht]))]
      simp only [List.length_cons, Nat.add_sub_cancel]
      rw [Nat.succ_mul]
      omega

lemma countChar_padCell (w : Nat) (s : String) (c : Char) (hc : c ≠ ' ') :
    countChar (padCell w s) c = countChar s c := by
  have h1 : (" " : String).data = [' '] := rfl
  have h2 : ("  " : String).data = [' ', ' '] := rfl
  simp [padCell, countChar, String.data_append, h1, h2, repeatChar,
    List.count_append, List.count_cons, List.count_replicate, List.count_nil,
    Ne.symm hc]

lemma gridClean_count_pipe {s : String} (h : '|' ∉ s.data) :
    countChar (RST.clean s) '|' = 0 := by
  have hdata : (RST.clean s).data =
      replChar (replChar s.data '\\' ['\\', '\\']) '|' ['\\', '|'] := rfl
  have hin : '|' ∉ replChar s.data '\\' ['\\', '\\'] :=
    not_mem_replChar h (by decide)
  rw [countChar, hdata, replChar_of_not_mem _ hin]
  exact List.count_eq_zero.mpr hin

lemma delimitedRow_pipe_count (cl : String → String) (L : List Nat)
    (row : List String) (hne : L.zip row ≠ [])
    (hz : ∀ p ∈ L.zip row, countChar (cl p.2) '|' = 0) :
    countChar (delimitedRow "|" cl L row) '|' = (L.zip row).length + 1 := by
  have hcells : ∀ s ∈ rowCells cl L row, countChar s '|' = 0 := by
    intro s hs
    simp only [rowCells, List.mem_map] at hs
    obtain ⟨p, hp, rfl⟩ := hs
    rw [countChar_padCell _ _ _ (by decide)]
    exact hz p hp
  have hlen : (rowCells cl L row).length = (L.zip row).length := by
    simp [rowCells]
  have hne2 : rowCells cl L row ≠ [] := by
    simp only [rowCells, ne_eq, List.map_eq_nil_iff]
    exact hne
  have hpos : 0 < (L.zip row).length := List.length_pos.mpr hne
  rw [delimitedRow, countChar_append, countChar_append,
    countChar_pyJoin _ _ _ hne2 hcells, hlen]
  have hsep : countChar "|" '|' = 1 := by decide
  rw [hsep]
  omega

/-- C4 counterexample lives further below; here is the amended padding
fact.  C4, amended: in every padding dialect a rendered row is the
delimiter, the delimiter-joined padded cells, and the delimiter again;
the content placed between two delimiters for the column of width `w`
is ONE LEADING SPACE, then the cleaned cell left-justified with
trailing spaces to exactly width `w`, then two additional trailing
spaces — `w + 3` characters in total (when the cleaned value fits),
not `w + 2` as claimed. -/
theorem claim4_padding (cl : String → String) (L : List Nat)
    (row : List String) (i w : Nat) (s : String)
    (hi : (L.zip row)[i]? = some (w, s)) (hfit : (cl s).length ≤ w) :
    delimitedRow "|" cl L row =
      "|" ++ (pyJoin "|" (rowCells cl L row) ++ "|") ∧
    (rowCells cl L row)[i]? =
      some (" " ++ (cl s ++ repeatChar ' ' (w - (cl s).length)) ++ "  ") ∧
    (padCell w (cl s)).length = w + 3 := by
  refine ⟨rfl, ?_, ?_⟩
  · rw [rowCells, List.getElem?_map, hi]
    rfl
  · have h1 : (" " : String).length = 1 := rfl
    have h2 : ("  " : String).length = 2 := rfl
    simp only [padCell, String.length_append, h1, h2, repeatChar,
      String.length_mk, List.length_replicate]
    omega

/-- Witness for the amended C4 at width 1 and cell `"a"` in the
Markdown dialect: the rendered cell is `" a  "`, of length `1 + 3`. -/
theorem claim4_padding_wit :
    delimitedRow "|" Markdown.clean [1] ["a"] =
      "|" ++ (pyJoin "|" (rowCells Markdown.clean [1] ["a"]) ++ "|") ∧
    (rowCells Markdown.clean [1] ["a"])[0]? =
      some (" " ++ (Markdown.clean "a" ++
        repeatChar ' ' (1 - (Markdown.clean "a").length)) ++ "  ") ∧
    (padCell 1 (Markdown.clean "a")).length = 1 + 3 :=
  claim4_padding Markdown.clean [1] ["a"] 0 1 "a" (by decide) (by decide)

lemma foldl_min_const {α} {N : Nat} (rs : List (List α))
    (h : ∀ r ∈ rs, r.length = N) :
    rs.foldl (fun m row => min m row.length) N = N := by
  induction rs with
  | nil => rfl
  | cons r rest ih =>
    show rest.foldl _ (min N r.length) = N
    rw [h r (by simp), min_self]
    exact ih (fun t ht => h t (by simp [ht]))

lemma minLen_uniform {data : List (List String)} {N : Nat} (hne : data ≠ [])
    (hN : ∀ r ∈ data, r.length = N) : minLen data = N := by
  obtain ⟨r, rs, rfl⟩ := List.exists_cons_of_ne_nil hne
  show rs.foldl (fun m row => min m row.length) r.length = N
  rw [hN r (by simp)]
  exact foldl_min_const rs (fun t ht => hN t (by simp [ht]))

/-- C6, amended: for a table whose retained rows all have `N` cells and
whose cells contain no `'|'` character, every rendered Grid, Markdown or
Wiki body line contains exactly `N + 1` occurrences of the delimiter
`'|'`.  (Without the no-delimiter-in-cell restriction the claim fails:
an escaped `\|` — or a verbatim `|` in the Wiki dialect — adds extra
occurrences, see the counterexample.) -/
theorem claim6_delimiter_count (stream : List (List String)) (N : Nat)
    (header r : List String) (body : List (List String))
    (hdata : initData stream = header :: body)
    (hN : ∀ t ∈ initData stream, t.length = N)
    (hpipe : ∀ t ∈ initData stream, ∀ cell ∈ t, '|' ∉ cell.data)
    (hr : r ∈ body) :
    countChar (RST.processRegularRow (initLengths (initData stream)) r) '|' =
      N + 1 ∧
    countChar (Markdown.processRegularRow (initLengths (initData stream)) r)
      '|' = N + 1 ∧
    countChar (Dokuwiki.processRegularRow (initLengths (initData stream)) r)
      '|' = N + 1 := by
  set data := initData stream with hdef
  have hrdata : r ∈ data := by rw [hdata]; exact List.mem_cons_of_mem _ hr
  have hrN : r.length = N := hN r hrdata
  have hNpos : 0 < N := by
    have : r ≠ [] := by
      have := List.mem_filter.mp (by rw [hdef] at hrdata; exact hrdata)
      simpa using this.2
    have := List.length_pos.mpr this
    omega
  have hLlen : (initLengths data).length = N := by
    rw [initLengths_length (by rw [hdata]; simp), minLen_uniform (by rw [hdata]; simp) hN]
  have hziplen : ((initLengths data).zip r).length = N := by
    rw [List.length_zip, hLlen, hrN, min_self]
  have hzipne : (initLengths data).zip r ≠ [] := by
    intro hnil
    rw [hnil] at hziplen
    simp at hziplen
    omega
  have hcell : ∀ p ∈ (initLengths data).zip r, '|' ∉ (p.2).data := by
    intro p hp
    exact hpipe r hrdata p.2 (List.of_mem_zip hp).2
  refine ⟨?_, ?_, ?_⟩
  · rw [RST.processRegularRow,
      delimitedRow_pipe_count RST.clean _ _ hzipne
        (fun p hp => gridClean_count_pipe (hcell p hp)), hziplen]
  · rw [Markdown.processRegularRow,
      delimitedRow_pipe_count Markdown.clean _ _ hzipne
        (fun p hp => gridClean_count_pipe (hcell p hp)), hziplen]
  · rw [Dokuwiki.processRegularRow,
      delimitedRow_pipe_count Dokuwiki.clean _ _ hzipne
        (fun p hp => List.count_eq_zero.mpr (hcell p hp)), hziplen]

/-- Witness for the amended C6 at the table `[["aa"],["b"]]` (one
column, no delimiter characters in the cells): each body line holds
exactly `1 + 1` delimiters. -/
theorem claim6_delimiter_count_wit :
    countChar (RST.processRegularRow
      (initLengths (initData [["aa"], ["b"]])) ["b"]) '|' = 1 + 1 ∧
    countChar (Markdown.processRegularRow
      (initLengths (initData [["aa"], ["b"]])) ["b"]) '|' = 1 + 1 ∧
    countChar (Dokuwiki.processRegularRow
      (initLengths (initData [["aa"], ["b"]])) ["b"]) '|' = 1 + 1 :=
  claim6_delimiter_count [["aa"], ["b"]] 1 ["aa"] ["b"] [["b"]]
    (by decide) (by decide) (by decide) (by decide)

/-!  Claims settled by concrete evaluation of the embedded pipeline. -/

/-- C2 counterexample: the claimed dash row `"| ----  | ---  |"` (width
dashes, two trailing spaces) is not what the renderer emits for the
header `["Name","Age"]` with body `[["Al","30"]]`; the separator is
built from `'-' * (length+1)` with a single space on each side. -/
theorem claim2_markdown_scenario_cex :
    Markdown.render [["Name", "Age"], ["Al", "30"]] ≠
      ["| Name  | Age  |", "| ----  | ---  |", "| Al    | 30   |"] := by
  decide

/-- C2, amended: the Markdown rendering of header `["Name","Age"]` and
body `[["Al","30"]]` is exactly the three lines below, whose middle
(separator) line carries `width+1` dashes with one leading and one
trailing space — `"| ----- | ---- |"`, not `"| ----  | ---  |"`. -/
theorem claim2_markdown_scenario :
    Markdown.render [["Name", "Age"], ["Al", "30"]] =
      ["| Name  | Age  |", "| ----- | ---- |", "| Al    | 30   |"] := by
  decide

/-- C3: Grid (reST) scenario.  The border line for the computed widths
`[4,3]` is `"+-------+------+"` (each column contributing `width+3` fill
characters, columns joined and bounded by the corner `'+'`), and the
rendered table is border, header cells, `'='`-filled separator, body
row, and a trailing border identical to the first line.  The last
conjunct records the general corner/fill/join construction of every
border line. -/
theorem claim3_grid_scenario :
    RST.render [["Name", "Age"], ["Al", "30"]] =
      ["+-------+------+", "| Name  | Age  |", "+=======+======+",
       "| Al    | 30   |", "+-------+------+"] ∧
    RST.border [4, 3] = "+-------+------+" ∧
    (RST.render [["Name", "Age"], ["Al", "30"]]).getLast? =
      (RST.render [["Name", "Age"], ["Al", "30"]]).head? ∧
    (∀ ch L, RST.borderWith ch L =
      "+" ++ (pyJoin "+" (L.map (fun len => repeatChar ch (len + 3))) ++ "+")) := by
  exact ⟨by decide, by decide, by decide, fun ch L => rfl⟩

/-- C4 counterexample: the claim predicts that the content between two
delimiters is the cell left-justified to the column width plus two
trailing spaces and nothing else, i.e. `"|a  |"` for width 1 and cell
`"a"`; the renderer actually emits a leading space as well
(`" %-*s  "`), giving `"| a  |"` with `width+3` characters between the
delimiters. -/
theorem claim4_padding_cex :
    RST.processRegularRow [1] ["a"] = "| a  |" ∧
    RST.processRegularRow [1] ["a"] ≠ "|a  |" := by
  decide

/-- C5 counterexample: `HTML.clean` is `cgi.escape` with its default
`quote=None`, so a double-quote character is NOT entity-escaped,
contradicting the claim that quote characters are escaped. -/
theorem claim5_html_quote_cex :
    HTML.clean "\"" = "\"" ∧ HTML.clean "\"" ≠ "&quot;" := by
  decide

/-- C6 counterexample: for the 1-column table with header `["a"]` and
body `[["|"]]`, the Markdown body line is `"| \|  |"`: the escaped cell
still contains the delimiter character, so the line has 3 occurrences
of `'|'`, not `columns + 1 = 2`. -/
theorem claim6_delimiter_count_cex :
    countChar
      (Markdown.processRegularRow (initLengths (initData [["a"], ["|"]])) ["|"])
      '|' = 3 ∧
    Markdown.render [["a"], ["|"]] = ["| a  |", "| -- |", "| \\|  |"] ∧
    ¬(3 = 1 + 1) := by
  decide

/-- C8: the alias `"md"` resolves in `FORMATS` to the very same
`(class, aliases)` entry as `"markdown"`, so rendering any input stream
through either name produces identical output lines. -/
theorem claim8_md_alias :
    lookupFormat "md" = lookupFormat "markdown" ∧
    ∀ stream, (lookupFormat "md").map (fun e => classRender e.1 stream) =
      (lookupFormat "markdown").map (fun e => classRender e.1 stream) := by
  have h1 : lookupFormat "md" = some (MarkupClass.markdown, ["md"]) := by decide
  have h2 : lookupFormat "markdown" = some (MarkupClass.markdown, ["md"]) := by
    decide
  exact ⟨h1.trans h2.symm, fun stream => by rw [h1, h2]⟩

/-- C10: if no rows remain once the zero-cell rows are discarded, every
dialect renders the empty sequence of lines — in particular no border,
separator, or `<table>`/`<tbody>` tag lines are emitted (the header
phase is never reached because `next` on the empty buffered data ends
the generator). -/
theorem claim10_empty_render (stream : List (List String))
    (h : initData stream = []) :
    RST.render stream = [] ∧ Markdown.render stream = [] ∧
    Dokuwiki.render stream = [] ∧ HTML.render stream = [] := by
  refine ⟨?_, ?_, ?_, ?_⟩ <;>
    simp [RST.render, Markdown.render, Dokuwiki.render, HTML.render, h]

/-- Witness for C10 at the concrete input `[[], []]` (two blank csv
lines): after filtering nothing remains and all four renderers yield no
lines. -/
theorem claim10_empty_render_wit :
    RST.render [[], []] = [] ∧ Markdown.render [[], []] = [] ∧
    Dokuwiki.render [[], []] = [] ∧ HTML.render [[], []] = [] :=
  claim10_empty_render [[], []] (by decide)

end Csv2Markup
